import Mathlib

/-!
The `urgent` command.

A shallow embedding of `urgent.go`: the command walks the X11 window hierarchy
below the root window and prints the names of the windows whose ICCCM
`WM_HINTS` carry the urgency flag.

The X server is an external collaborator.  It is modelled by what its replies
are: the window hierarchy (with, per window, whether `QueryTree` on it fails) is
a finite tree `WTree`, and the per-window property replies are functions of the
window identifier, collected in `XUtil`.  Go strings are byte strings; here they
are `String`, and only concatenation and comparison with the empty string are
used on them.  A Go `error` is the text of its message; `nil` is `none`.
-/

namespace Urgent

/-- The type `xproto.Window`, a numeric window identifier. -/
abbrev Window := Nat

/-- The part of `icccm.Hints` the command reads: the `Flags` bitset. -/
structure Hints where
  Flags : Nat
deriving DecidableEq

/-- The reply of `xproto.GetProperty`: the command reads only `Value`. -/
structure GetPropertyReply where
  Value : String
deriving DecidableEq

/-- The replies of the X server to the per-window requests made through the
connection `X`: the bounded read of the `WM_NAME` property of type `STRING`,
`icccm.WmNameGet` and `icccm.WmHintsGet`.  Each is an error or a value. -/
structure XUtil where
  GetProperty : Window → Except String GetPropertyReply
  WmNameGet : Window → Except String String
  WmHintsGet : Window → Except String Hints

/-- The window hierarchy as the server holds it.  A node is a window, the
outcome of `xproto.QueryTree` on it (`some err` when the request fails, and
then its children are not reported), and its child windows in the order
`QueryTree` lists them. -/
inductive WTree where
  | node (win : Window) (queryErr : Option String) (children : List WTree) : WTree

namespace WTree

/-- The identifier of the window at the top of the tree. -/
def win : WTree → Window
  | node w _ _ => w

/-- The error of `QueryTree` on the top window, if it fails. -/
def queryErr : WTree → Option String
  | node _ q _ => q

/-- The child windows of the top window. -/
def children : WTree → List WTree
  | node _ _ cs => cs

end WTree

/-- The constant `urgencyHint = (1 << 8)`. -/
def urgencyHint : Nat := 1 <<< 8

/-- The function `windowName`: the `WM_NAME` property read directly when that
succeeds with a non-empty value, otherwise whatever `icccm.WmNameGet` gives. -/
def windowName (X : XUtil) (win : Window) : Except String String :=
  match X.GetProperty win with
  | .ok reply => if reply.Value.length > 0 then .ok reply.Value else X.WmNameGet win
  | .error _ => X.WmNameGet win

mutual
/-- The function `findUrgent`, with the global slice `urgent` threaded through:
the result is the returned error (`none` for `nil`) and the slice afterwards. -/
def findUrgent (X : XUtil) : WTree → List String → Option String × List String
  | .node _ (some err) _, urgent => (some ("queryTree failed: " ++ err), urgent)
  | .node _ none children, urgent => (none, findUrgentChildren X children urgent)
/-- The loop `for _, child := range tree.Children` of `findUrgent`. -/
def findUrgentChildren (X : XUtil) : List WTree → List String → List String
  | [], urgent => urgent
  | child :: rest, urgent =>
    -- the error returned by the recursive call is dropped
    let urgent1 := (findUrgent X child urgent).2
    match X.WmHintsGet child.win with
    | .error _ => findUrgentChildren X rest urgent1
    | .ok hints =>
      if hints.Flags &&& urgencyHint = 0 then findUrgentChildren X rest urgent1
      else
        match windowName X child.win with
        | .ok name =>
          if name ≠ "" then findUrgentChildren X rest (urgent1 ++ [name])
          else findUrgentChildren X rest urgent1
        | .error _ => findUrgentChildren X rest urgent1
end

/-- The function `strings.Join` of the Go standard library. -/
def Join : List String → String → String
  | [], _ => ""
  | [a], _ => a
  | a :: rest, sep => rest.foldl (fun b s => b ++ sep ++ s) a

/-- What a run of the command leaves behind: the text written to standard
output, the messages handed to the logger, and the exit status. -/
structure Run where
  stdout : String
  logged : List String
  status : Nat
deriving DecidableEq

/-- The function `main`.  Its argument is the outcome of `xgbutil.NewConn`: an
error, or a connection together with the hierarchy under `X.RootWin()`. -/
def main (conn : Except String (XUtil × WTree)) : Run :=
  match conn with
  | .error err => ⟨"", ["Error connecting to X, quitting... " ++ err], 1⟩
  | .ok (X, root) =>
    let r := findUrgent X root []
    let logged := match r.1 with
      | some err => [err]
      | none => []
    if r.2.length ≠ 0 then ⟨Join r.2 ", " ++ "\n", logged, 0⟩
    else ⟨"", logged, 0⟩

/-! ## Specification-side notions -/

/-- Whether the hints of `win` can be fetched and have bit 8 set. -/
def isUrgent (X : XUtil) (win : Window) : Bool :=
  match X.WmHintsGet win with
  | .ok hints => hints.Flags.testBit 8
  | .error _ => false

/-- The entry a window stands for in the result list: its resolved name when it
is urgent and the name resolves to a non-empty string, nothing otherwise. -/
def ownEntry (X : XUtil) (win : Window) : Option String :=
  if isUrgent X win then
    match windowName X win with
    | .ok name => if name = "" then none else some name
    | .error _ => none
  else none

mutual
/-- The proper descendants of the top window, each with its own subtree, every
window after all of its descendants and siblings in enumeration order. -/
def subtrees : WTree → List WTree
  | .node _ _ children => subtreesOfList children
/-- The list `subtrees` of a sibling list. -/
def subtreesOfList : List WTree → List WTree
  | [] => []
  | child :: rest => subtrees child ++ child :: subtreesOfList rest
end

mutual
/-- The proper descendants that the walk reaches: as `subtrees`, but nothing
below a window whose `QueryTree` fails. -/
def visited : WTree → List WTree
  | .node _ (some _) _ => []
  | .node _ none children => visitedOfList children
/-- The list `visited` of a sibling list. -/
def visitedOfList : List WTree → List WTree
  | [] => []
  | child :: rest => visited child ++ child :: visitedOfList rest
end

mutual
/-- Whether `QueryTree` succeeds on the top window and on every descendant. -/
def queriesOk : WTree → Bool
  | .node _ q children => q.isNone && queriesOkOfList children
/-- The check `queriesOk` on every tree of a sibling list. -/
def queriesOkOfList : List WTree → Bool
  | [] => true
  | child :: rest => queriesOk child && queriesOkOfList rest
end

mutual
/-- The hierarchy in which every window whose `QueryTree` fails is replaced by
a window with the same identifier whose `QueryTree` succeeds with no child. -/
def childless : WTree → WTree
  | .node w (some _) _ => .node w none []
  | .node w none children => .node w none (childlessOfList children)
/-- The map of `childless` over a sibling list. -/
def childlessOfList : List WTree → List WTree
  | [] => []
  | child :: rest => childless child :: childlessOfList rest
end

/-- The names written one after the other with `sep` between each two
neighbours. -/
def joined (sep : String) : List String → String
  | [] => ""
  | [a] => a
  | a :: b :: rest => a ++ sep ++ joined sep (b :: rest)

/-! ## Scenes used as concrete inputs -/

/-- A server on which every window is urgent and is named by `WM_NAME` with
the letter `w` followed by its identifier. -/
def allUrgent : XUtil where
  GetProperty := fun w => .ok ⟨"w" ++ toString w⟩
  WmNameGet := fun _ => .error "no WM_NAME"
  WmHintsGet := fun _ => .ok ⟨256⟩

/-- The server of the end-to-end scenario: window 1 (A) is not urgent, window 2
(B) is urgent and named Mail, window 3 (C) is urgent without a name, window 4
(D) is urgent and named Chat; the root is window 0. -/
def scenarioX : XUtil where
  GetProperty := fun w =>
    if w = 2 then .ok ⟨"Mail"⟩ else if w = 4 then .ok ⟨"Chat"⟩ else .error "BadAtom"
  WmNameGet := fun _ => .error "no WM_NAME"
  WmHintsGet := fun w => if w = 0 ∨ w = 1 then .ok ⟨0⟩ else .ok ⟨256⟩

/-- The hierarchy of the end-to-end scenario: the root lists A, B, C in this
order and C has the single child D. -/
def scenarioTree : WTree :=
  .node 0 none [.node 1 none [], .node 2 none [], .node 3 none [.node 4 none []]]

/-- A server like `allUrgent` below the root, on which the root window 0 is
not urgent and has no name. -/
def plainRoot : XUtil where
  GetProperty := fun w => if w = 0 then .error "BadAtom" else .ok ⟨"w" ++ toString w⟩
  WmNameGet := fun _ => .error "no WM_NAME"
  WmHintsGet := fun w => if w = 0 then .ok ⟨0⟩ else .ok ⟨256⟩

/-- The server `scenarioX` once window 3 (C) is no longer urgent. -/
def scenarioCalm : XUtil where
  GetProperty := scenarioX.GetProperty
  WmNameGet := scenarioX.WmNameGet
  WmHintsGet := fun w => if w = 3 then .ok ⟨0⟩ else scenarioX.WmHintsGet w

/-- A root window alone. -/
def rootOnly : WTree := .node 0 none []

/-- A root listing windows 1 and 2, where `QueryTree` fails on window 1, which
has the child 3. -/
def failingChild : WTree :=
  .node 0 none [.node 1 (some "BadWindow") [.node 3 none []], .node 2 none []]

/-- The number of newline characters in a text: the number of lines of a text
that ends with a newline. -/
def newlines (s : String) : Nat := s.data.count (Char.ofNat 10)

/-- A server on which window 1 is urgent with a `WM_NAME` that holds a newline
and every other window is urgent and named c. -/
def twoLineName : XUtil where
  GetProperty := fun w => if w = 1 then .ok ⟨"a\nb"⟩ else .ok ⟨"c"⟩
  WmNameGet := fun _ => .error "no WM_NAME"
  WmHintsGet := fun _ => .ok ⟨256⟩

/-- A root listing the childless windows 1 and 2. -/
def twoChildren : WTree := .node 0 none [.node 1 none [], .node 2 none []]

/-! ## Lemmas -/

theorem land_urgencyHint (n : Nat) : (n &&& urgencyHint = 0) ↔ n.testBit 8 = false := by
  have h := Nat.and_two_pow n 8
  have e : urgencyHint = 2 ^ 8 := by decide
  rw [e, h]
  cases n.testBit 8 <;> simp

theorem findUrgentChildren_cons (X : XUtil) (c : WTree) (rest : List WTree)
    (acc : List String) :
    findUrgentChildren X (c :: rest) acc =
      findUrgentChildren X rest ((findUrgent X c acc).2 ++ (ownEntry X c.win).toList) := by
  obtain ⟨r, hr⟩ : ∃ r, X.WmHintsGet c.win = r := ⟨_, rfl⟩
  obtain ⟨n, hn⟩ : ∃ n, windowName X c.win = n := ⟨_, rfl⟩
  rw [findUrgentChildren]
  simp only [ownEntry, isUrgent, hr, hn]
  cases r with
  | error e => simp
  | ok hints =>
    by_cases hb : hints.Flags &&& urgencyHint = 0
    · have := (land_urgencyHint hints.Flags).1 hb
      simp [hb, this]
    · have hb2 : hints.Flags.testBit 8 = true := by
        cases ht : hints.Flags.testBit 8
        · exact absurd ((land_urgencyHint hints.Flags).2 ht) hb
        · rfl
      simp only [hb, hb2, if_true, if_false]
      cases n with
      | error e => simp
      | ok name =>
        by_cases hne : name = "" <;> simp [hne]

mutual
theorem findUrgent_snd (X : XUtil) : ∀ (t : WTree) (acc : List String),
    (findUrgent X t acc).2 = acc ++ (visited t).filterMap (fun s => ownEntry X s.win)
  | .node _ (some _) _, acc => by simp [findUrgent, visited]
  | .node _ none cs, acc => by
    simp only [findUrgent, visited]
    exact findUrgentChildren_eq X cs acc
theorem findUrgentChildren_eq (X : XUtil) : ∀ (cs : List WTree) (acc : List String),
    findUrgentChildren X cs acc =
      acc ++ (visitedOfList cs).filterMap (fun s => ownEntry X s.win)
  | [], acc => by simp [findUrgentChildren, visitedOfList]
  | c :: rest, acc => by
    rw [findUrgentChildren_cons, findUrgentChildren_eq X rest, findUrgent_snd X c acc]
    simp only [visitedOfList, List.filterMap_append, List.filterMap_cons, List.append_assoc]
    cases ownEntry X c.win <;> simp
end

theorem findUrgent_fst (X : XUtil) (t : WTree) (acc : List String) :
    (findUrgent X t acc).1 = t.queryErr.map (fun err => "queryTree failed: " ++ err) := by
  rcases t with ⟨w, _ | e, cs⟩ <;> simp [findUrgent, WTree.queryErr]

theorem findUrgent_snd_of_fails (X : XUtil) (t : WTree) (acc : List String)
    (h : t.queryErr ≠ none) : (findUrgent X t acc).2 = acc := by
  rcases t with ⟨w, _ | e, cs⟩
  · exact absurd rfl h
  · simp [findUrgent]

theorem visited_of_fails (t : WTree) (h : t.queryErr ≠ none) : visited t = [] := by
  rcases t with ⟨w, _ | e, cs⟩
  · exact absurd rfl h
  · simp [visited]

theorem visitedOfList_append : ∀ (l₁ l₂ : List WTree),
    visitedOfList (l₁ ++ l₂) = visitedOfList l₁ ++ visitedOfList l₂
  | [], l₂ => by simp [visitedOfList]
  | c :: l₁, l₂ => by simp [visitedOfList, visitedOfList_append l₁ l₂]

mutual
theorem visited_sublist : ∀ t : WTree, (visited t).Sublist (subtrees t)
  | .node _ (some _) _ => by simp [visited]
  | .node _ none cs => by
    simp only [visited, subtrees]
    exact visitedOfList_sublist cs
theorem visitedOfList_sublist : ∀ cs : List WTree,
    (visitedOfList cs).Sublist (subtreesOfList cs)
  | [] => by simp [visitedOfList, subtreesOfList]
  | c :: rest => by
    simp only [visitedOfList, subtreesOfList]
    exact (visited_sublist c).append ((visitedOfList_sublist rest).cons₂ c)
end

mutual
theorem visited_eq_subtrees : ∀ t : WTree, queriesOk t = true → visited t = subtrees t
  | .node _ (some _) _, h => by simp [queriesOk] at h
  | .node _ none cs, h => by
    simp only [queriesOk, Option.isNone_none, Bool.true_and] at h
    simp only [visited, subtrees]
    exact visitedOfList_eq cs h
theorem visitedOfList_eq : ∀ cs : List WTree, queriesOkOfList cs = true →
    visitedOfList cs = subtreesOfList cs
  | [], _ => by simp [visitedOfList, subtreesOfList]
  | c :: rest, h => by
    simp only [queriesOkOfList, Bool.and_eq_true] at h
    simp only [visitedOfList, subtreesOfList, visited_eq_subtrees c h.1,
      visitedOfList_eq rest h.2]
end

mutual
theorem subtrees_segment : ∀ (t s : WTree), s ∈ subtrees t →
    ∃ before after, subtrees t = before ++ subtrees s ++ s :: after
  | .node _ _ cs, s, h => by
    simp only [subtrees] at h ⊢
    exact subtreesOfList_segment cs s h
theorem subtreesOfList_segment : ∀ (cs : List WTree) (s : WTree), s ∈ subtreesOfList cs →
    ∃ before after, subtreesOfList cs = before ++ subtrees s ++ s :: after
  | [], s, h => by simp [subtreesOfList] at h
  | c :: rest, s, h => by
    simp only [subtreesOfList, List.mem_append, List.mem_cons] at h
    rcases h with h | h | h
    · obtain ⟨b, a, e⟩ := subtrees_segment c s h
      exact ⟨b, a ++ c :: subtreesOfList rest, by simp [subtreesOfList, e]⟩
    · subst h
      exact ⟨[], subtreesOfList rest, by simp [subtreesOfList]⟩
    · obtain ⟨b, a, e⟩ := subtreesOfList_segment rest s h
      exact ⟨subtrees c ++ c :: b, a, by simp [subtreesOfList, e]⟩
end

theorem childless_win (t : WTree) : (childless t).win = t.win := by
  rcases t with ⟨w, _ | e, cs⟩ <;> simp [childless, WTree.win]

mutual
theorem childless_queriesOk : ∀ t : WTree, queriesOk (childless t) = true
  | .node _ (some _) _ => by simp [childless, queriesOk, queriesOkOfList]
  | .node _ none cs => by
    simp only [childless, queriesOk, Option.isNone_none, Bool.true_and]
    exact childlessOfList_queriesOk cs
theorem childlessOfList_queriesOk : ∀ cs : List WTree,
    queriesOkOfList (childlessOfList cs) = true
  | [] => by simp [childlessOfList, queriesOkOfList]
  | c :: rest => by
    simp [childlessOfList, queriesOkOfList, childless_queriesOk c,
      childlessOfList_queriesOk rest]
end

mutual
theorem findUrgent_childless (X : XUtil) : ∀ (t : WTree) (acc : List String),
    (findUrgent X (childless t) acc).2 = (findUrgent X t acc).2
  | .node _ (some _) _, acc => by simp [childless, findUrgent, findUrgentChildren]
  | .node _ none cs, acc => by
    simp only [childless, findUrgent]
    exact findUrgentChildren_childless X cs acc
theorem findUrgentChildren_childless (X : XUtil) : ∀ (cs : List WTree) (acc : List String),
    findUrgentChildren X (childlessOfList cs) acc = findUrgentChildren X cs acc
  | [], acc => by simp [childlessOfList]
  | c :: rest, acc => by
    simp only [childlessOfList]
    rw [findUrgentChildren_cons, findUrgentChildren_cons, findUrgent_childless X c acc,
      childless_win, findUrgentChildren_childless X rest]
end

theorem joined_append_head (sep p q : String) (r : List String) :
    joined sep ((p ++ q) :: r) = p ++ joined sep (q :: r) := by
  cases r with
  | nil => simp [joined]
  | cons c r => simp [joined, String.append_assoc]

theorem foldl_eq_joined (sep : String) : ∀ (rest : List String) (a : String),
    rest.foldl (fun b s => b ++ sep ++ s) a = joined sep (a :: rest)
  | [], a => by simp [joined]
  | b :: r, a => by
    rw [List.foldl_cons, foldl_eq_joined sep r, String.append_assoc, joined_append_head,
      joined_append_head]
    simp [joined, String.append_assoc]

theorem Join_eq_joined (l : List String) (sep : String) : Join l sep = joined sep l := by
  rcases l with _ | ⟨a, _ | ⟨b, r⟩⟩
  · simp [Join, joined]
  · simp [Join, joined]
  · rw [Join, foldl_eq_joined]
    simp

theorem joined_length (sep : String) : ∀ l : List String,
    (joined sep l).length = (l.map String.length).sum + sep.length * (l.length - 1)
  | [] => by simp [joined]
  | [a] => by simp [joined]
  | a :: b :: r => by
    rw [joined, String.length_append, String.length_append, joined_length sep (b :: r)]
    simp only [List.map_cons, List.sum_cons, List.length_cons, Nat.add_sub_cancel]
    ring

theorem length_eq_zero_iff (s : String) : s.length = 0 ↔ s = "" := by
  constructor
  · intro h
    cases s with
    | mk d =>
      simp [String.length] at h
      subst h
      rfl
  · intro h
    subst h
    rfl

theorem ownEntry_eq_some {X : XUtil} {w : Window} {name : String}
    (h : ownEntry X w = some name) :
    isUrgent X w = true ∧ windowName X w = .ok name ∧ name ≠ "" := by
  unfold ownEntry at h
  by_cases hu : isUrgent X w = true
  · rw [if_pos hu] at h
    obtain ⟨n, hn⟩ : ∃ n, windowName X w = n := ⟨_, rfl⟩
    rw [hn] at h ⊢
    cases n with
    | error e => simp at h
    | ok nm =>
      by_cases he : nm = ""
      · simp [he] at h
      · simp only [he, if_false, Option.some.injEq] at h
        subst h
        exact ⟨hu, rfl, he⟩
  · rw [if_neg hu] at h
    simp at h

theorem ownEntry_of_named {X : XUtil} {w : Window} {name : String}
    (hu : isUrgent X w = true) (hn : windowName X w = .ok name) (he : name ≠ "") :
    ownEntry X w = some name := by
  simp [ownEntry, hu, hn, he]

theorem ownEntry_of_calm {X : XUtil} {w : Window} (hu : isUrgent X w = false) :
    ownEntry X w = none := by
  simp [ownEntry, hu]

theorem ownEntry_of_nameless {X : XUtil} {w : Window}
    (hn : ∀ name, windowName X w = .ok name → name = "") : ownEntry X w = none := by
  unfold ownEntry
  obtain ⟨n, hn'⟩ : ∃ n, windowName X w = n := ⟨_, rfl⟩
  rw [hn'] at hn ⊢
  cases n with
  | error e => simp
  | ok nm => simp [hn nm rfl]

theorem isUrgent_iff (X : XUtil) (w : Window) :
    isUrgent X w = true ↔
      ∃ hints, X.WmHintsGet w = .ok hints ∧ hints.Flags &&& urgencyHint ≠ 0 := by
  unfold isUrgent
  obtain ⟨r, hr⟩ : ∃ r, X.WmHintsGet w = r := ⟨_, rfl⟩
  rw [hr]
  cases r with
  | error e => simp
  | ok hints =>
    show hints.Flags.testBit 8 = true ↔ _
    have key := land_urgencyHint hints.Flags
    constructor
    · intro h
      refine ⟨hints, rfl, ?_⟩
      intro h0
      rw [key.1 h0] at h
      cases h
    · rintro ⟨hs, e, hne⟩
      cases e
      cases hb : hints.Flags.testBit 8
      · exact absurd (key.2 hb) hne
      · rfl

theorem ownEntry_congr {X X' : XUtil} {w : Window}
    (hp : X.GetProperty w = X'.GetProperty w) (hn : X.WmNameGet w = X'.WmNameGet w)
    (hh : X.WmHintsGet w = X'.WmHintsGet w) : ownEntry X w = ownEntry X' w := by
  simp only [ownEntry, isUrgent, windowName, hp, hn, hh]

theorem filterMap_ownEntry_congr {X X' : XUtil} (l : List WTree)
    (h : ∀ s ∈ l, ownEntry X s.win = ownEntry X' s.win) :
    l.filterMap (fun s => ownEntry X s.win) = l.filterMap (fun s => ownEntry X' s.win) := by
  induction l with
  | nil => rfl
  | cons a l ih =>
    have ha := h a (List.mem_cons_self _ _)
    have hl := ih (fun s hs => h s (List.mem_cons_of_mem _ hs))
    simp only [List.filterMap_cons, ha, hl]

theorem findUrgent_congr {X X' : XUtil} (t : WTree) (acc : List String)
    (h : ∀ s ∈ visited t, ownEntry X s.win = ownEntry X' s.win) :
    findUrgent X t acc = findUrgent X' t acc := by
  apply Prod.ext
  · rw [findUrgent_fst, findUrgent_fst]
  · rw [findUrgent_snd, findUrgent_snd, filterMap_ownEntry_congr _ h]

theorem forall₂_filter_filterMap (X : XUtil) : ∀ l : List WTree,
    (∀ s ∈ l, isUrgent X s.win = true →
      ∃ name, windowName X s.win = .ok name ∧ name ≠ "") →
    List.Forall₂ (fun s name => windowName X s.win = .ok name)
      (l.filter (fun s => isUrgent X s.win)) (l.filterMap (fun s => ownEntry X s.win))
  | [], _ => by simp
  | a :: l, h => by
    have ih := forall₂_filter_filterMap X l (fun s hs => h s (List.mem_cons_of_mem _ hs))
    cases hu : isUrgent X a.win
    · simp only [List.filter_cons, hu, List.filterMap_cons, ownEntry_of_calm hu]
      exact ih
    · obtain ⟨name, hn, hne⟩ := h a (List.mem_cons_self _ _) hu
      simp only [List.filter_cons, hu, List.filterMap_cons, ownEntry_of_named hu hn hne]
      exact List.Forall₂.cons hn ih

theorem findUrgentChildren_append (X : XUtil) (l₁ l₂ : List WTree) (acc : List String) :
    findUrgentChildren X (l₁ ++ l₂) acc =
      findUrgentChildren X l₂ (findUrgentChildren X l₁ acc) := by
  simp only [findUrgentChildren_eq, visitedOfList_append, List.filterMap_append,
    List.append_assoc]

mutual
theorem visited_skips : ∀ (t N : WTree), N ∈ subtrees t → N.queryErr ≠ none →
    ∃ before after, subtrees t = before ++ subtrees N ++ N :: after ∧
      (visited t).Sublist (before ++ N :: after)
  | .node w (some e) cs, N, h, _ => by
    obtain ⟨b, a, he⟩ := subtrees_segment (.node w (some e) cs) N h
    exact ⟨b, a, he, by simp [visited]⟩
  | .node _ none cs, N, h, hN => by
    simp only [subtrees] at h ⊢
    simp only [visited]
    exact visitedOfList_skips cs N h hN
theorem visitedOfList_skips : ∀ (cs : List WTree) (N : WTree), N ∈ subtreesOfList cs →
    N.queryErr ≠ none →
    ∃ before after, subtreesOfList cs = before ++ subtrees N ++ N :: after ∧
      (visitedOfList cs).Sublist (before ++ N :: after)
  | [], N, h, _ => by simp [subtreesOfList] at h
  | c :: rest, N, h, hN => by
    simp only [subtreesOfList, List.mem_append, List.mem_cons] at h
    rcases h with h | h | h
    · obtain ⟨b, a, e, hs⟩ := visited_skips c N h hN
      refine ⟨b, a ++ c :: subtreesOfList rest, by simp [subtreesOfList, e], ?_⟩
      have := hs.append ((visitedOfList_sublist rest).cons₂ c)
      simpa [visitedOfList] using this
    · subst h
      refine ⟨[], subtreesOfList rest, by simp [subtreesOfList], ?_⟩
      simp only [visitedOfList, visited_of_fails N hN, List.nil_append]
      exact (visitedOfList_sublist rest).cons₂ N
    · obtain ⟨b, a, e, hs⟩ := visitedOfList_skips rest N h hN
      refine ⟨subtrees c ++ c :: b, a, by simp [subtreesOfList, e], ?_⟩
      have := (visited_sublist c).append (hs.cons₂ c)
      simpa [visitedOfList] using this
end

theorem newlines_append (s t : String) : newlines (s ++ t) = newlines s + newlines t := by
  simp [newlines, String.data_append, List.count_append]

theorem joined_newlines (sep : String) (hsep : newlines sep = 0) : ∀ l : List String,
    newlines (joined sep l) = (l.map newlines).sum
  | [] => by simp [joined, newlines]
  | [a] => by simp [joined]
  | a :: b :: r => by
    rw [joined, newlines_append, newlines_append, hsep, joined_newlines sep hsep (b :: r)]
    simp

theorem sum_map_eq_zero (f : String → Nat) : ∀ l : List String,
    (∀ n ∈ l, f n = 0) → (l.map f).sum = 0
  | [], _ => by simp
  | a :: l, h => by
    have ha := h a (List.mem_cons_self _ _)
    have hl := sum_map_eq_zero f l (fun n hn => h n (List.mem_cons_of_mem _ hn))
    simp [ha, hl]

/-! ## The claims -/

/-- C7: `windowName` returns the `WM_NAME` property value, with no error,
whenever the direct read succeeds with a non-empty value; when the read errors
or its value has length zero it returns exactly what `icccm.WmNameGet` returns;
so it yields an error only if the direct read gave no non-empty value and
`icccm.WmNameGet` failed with that error. -/
theorem windowName_spec (X : XUtil) (win : Window) :
    (∀ reply, X.GetProperty win = .ok reply → reply.Value ≠ "" →
      windowName X win = .ok reply.Value) ∧
    (((∃ err, X.GetProperty win = .error err) ∨
        (∃ reply, X.GetProperty win = .ok reply ∧ reply.Value.length = 0)) →
      windowName X win = X.WmNameGet win) ∧
    (∀ err, windowName X win = .error err →
      (∀ reply, X.GetProperty win = .ok reply → reply.Value = "") ∧
      X.WmNameGet win = .error err) := by
  unfold windowName
  obtain ⟨r, hr⟩ : ∃ r, X.GetProperty win = r := ⟨_, rfl⟩
  rw [hr]
  cases r with
  | error e => simp
  | ok reply =>
    by_cases hl : reply.Value.length = 0
    · have hv := (length_eq_zero_iff _).1 hl
      refine ⟨?_, ?_, ?_⟩
      · intro r' h hne
        cases h
        exact absurd hv hne
      · intro _
        simp [hl]
      · intro err h
        simp only [hl, gt_iff_lt, lt_self_iff_false, if_false] at h
        refine ⟨?_, h⟩
        intro r' h'
        cases h'
        exact hv
    · have hpos : reply.Value.length > 0 := Nat.pos_of_ne_zero hl
      refine ⟨?_, ?_, ?_⟩
      · intro r' h _
        cases h
        simp [hpos]
      · rintro (⟨e, h⟩ | ⟨r', h, h0⟩)
        · cases h
        · cases h
          exact absurd h0 hl
      · intro err h
        simp [hpos] at h

/-- Counterexample to C8: with the result list holding a name that contains a
newline, followed by the name c, `main` writes the names unchanged and
standard output holds two lines, not exactly one. -/
theorem main_stdout_two_lines :
    (findUrgent twoLineName twoChildren []).2 = ["a\nb", "c"] ∧
    (main (.ok (twoLineName, twoChildren))).stdout = "a\nb, c\n" ∧
    newlines (main (.ok (twoLineName, twoChildren))).stdout = 2 := by
  decide

/-- C8 (amended): whatever `findUrgent` leaves as its error and as the result
list `names`, `main` writes nothing to standard output when `names` is empty,
and otherwise the names in list order, unchanged and unquoted, with `, `
between each two neighbours, no separator after the last name, and a single
newline at the end: the names together plus two characters for each of the
`n - 1` separators plus the newline.  The output holds one newline more than
the names do, so it is exactly one line when no name contains a newline. -/
theorem main_stdout (X : XUtil) (root : WTree) (err : Option String) (names : List String)
    (h : findUrgent X root [] = (err, names)) :
    (main (.ok (X, root))).stdout =
      (if names = [] then "" else joined ", " names ++ "\n") ∧
    (names ≠ [] → (main (.ok (X, root))).stdout.length =
      (names.map String.length).sum + 2 * (names.length - 1) + 1) ∧
    newlines (main (.ok (X, root))).stdout =
      (if names = [] then 0 else (names.map newlines).sum + 1) ∧
    (names ≠ [] → (∀ n ∈ names, newlines n = 0) →
      newlines (main (.ok (X, root))).stdout = 1) := by
  have hs : (main (.ok (X, root))).stdout =
      (if names = [] then "" else joined ", " names ++ "\n") := by
    simp only [main, h]
    cases names with
    | nil => simp
    | cons a r => simp [Join_eq_joined]
  have hsep : newlines ", " = 0 := by decide
  have hnl : newlines "\n" = 1 := by decide
  have hcount : newlines (main (.ok (X, root))).stdout =
      (if names = [] then 0 else (names.map newlines).sum + 1) := by
    rw [hs]
    by_cases hne : names = []
    · rw [if_pos hne, if_pos hne]
      decide
    · rw [if_neg hne, if_neg hne, newlines_append, joined_newlines _ hsep, hnl]
  refine ⟨hs, ?_, hcount, ?_⟩
  · intro hne
    rw [hs, if_neg hne, String.length_append, joined_length]
    rfl
  · intro hne hall
    rw [hcount, if_neg hne, sum_map_eq_zero newlines names hall]

/-- Witness of C8 (amended): the end-to-end scenario, whose output is the one
line `Mail, Chat`. -/
theorem main_stdout_witness :
    (main (.ok (scenarioX, scenarioTree))).stdout =
      (if ["Mail", "Chat"] = ([] : List String) then ""
        else joined ", " ["Mail", "Chat"] ++ "\n") ∧
    (["Mail", "Chat"] ≠ ([] : List String) →
      (main (.ok (scenarioX, scenarioTree))).stdout.length =
        (["Mail", "Chat"].map String.length).sum + 2 * (["Mail", "Chat"].length - 1) + 1) ∧
    newlines (main (.ok (scenarioX, scenarioTree))).stdout =
      (if ["Mail", "Chat"] = ([] : List String) then 0
        else (["Mail", "Chat"].map newlines).sum + 1) ∧
    (["Mail", "Chat"] ≠ ([] : List String) → (∀ n ∈ ["Mail", "Chat"], newlines n = 0) →
      newlines (main (.ok (scenarioX, scenarioTree))).stdout = 1) :=
  main_stdout scenarioX scenarioTree none ["Mail", "Chat"] (by decide)

/-- Counterexample to C5: in the scenario (root listing A, B, C in this order,
D the only child of C) the result list is not Chat, Mail and the output line
is not `Chat, Mail`: B is appended before the walk reaches C and D. -/
theorem scenario_not_chat_mail :
    (findUrgent scenarioX scenarioTree []).2 ≠ ["Chat", "Mail"] ∧
    (main (.ok (scenarioX, scenarioTree))).stdout ≠ "Chat, Mail\n" := by
  decide

/-- C5 (amended): for the tree whose root enumerates A, B, C in that order,
where A is not urgent, B is urgent with name Mail, C (urgent or not) has no
resolvable name and has the single child D, urgent with name Chat, and all tree
queries succeed, `findUrgent` returns no error, the result list is Mail, Chat
and the output line is `Mail, Chat`. -/
theorem scenario_mail_chat (X : XUtil) (r a b c d : Window)
    (hA : isUrgent X a = false)
    (hB : isUrgent X b = true) (hBn : windowName X b = .ok "Mail")
    (hCn : ∀ name, windowName X c = .ok name → name = "")
    (hD : isUrgent X d = true) (hDn : windowName X d = .ok "Chat") :
    findUrgent X (.node r none [.node a none [], .node b none [],
        .node c none [.node d none []]]) [] = (none, ["Mail", "Chat"]) ∧
    (main (.ok (X, .node r none [.node a none [], .node b none [],
        .node c none [.node d none []]]))).stdout = "Mail, Chat\n" := by
  have ea := ownEntry_of_calm hA
  have eb : ownEntry X b = some "Mail" := ownEntry_of_named hB hBn (by decide)
  have ec := ownEntry_of_nameless hCn
  have ed : ownEntry X d = some "Chat" := ownEntry_of_named hD hDn (by decide)
  have h : findUrgent X (.node r none [.node a none [], .node b none [],
      .node c none [.node d none []]]) [] = (none, ["Mail", "Chat"]) := by
    apply Prod.ext
    · simp [findUrgent_fst, WTree.queryErr]
    · rw [findUrgent_snd]
      simp [visited, visitedOfList, WTree.win, ea, eb, ec, ed]
  refine ⟨h, ?_⟩
  simp only [main, h]
  decide

/-- Witness of C5 (amended): the scenario with windows 0 to 4. -/
theorem scenario_mail_chat_witness :
    findUrgent scenarioX scenarioTree [] = (none, ["Mail", "Chat"]) ∧
    (main (.ok (scenarioX, scenarioTree))).stdout = "Mail, Chat\n" :=
  scenario_mail_chat scenarioX 0 1 2 3 4 (by decide) (by decide) rfl
    (by
      intro name h
      have e : windowName scenarioX 3 = .error "no WM_NAME" := rfl
      rw [e] at h
      cases h)
    (by decide) rfl

/-- Counterexample to C2: `QueryTree` fails on window 1, a child of the root,
and `findUrgent` on the root returns no error. -/
theorem findUrgent_descendant_failure_unreported :
    WTree.node 1 (some "BadWindow") [.node 3 none []] ∈ subtrees failingChild ∧
    (WTree.node 1 (some "BadWindow") [.node 3 none []]).queryErr = some "BadWindow" ∧
    (findUrgent allUrgent failingChild []).1 = none := by
  refine ⟨?_, rfl, by decide⟩
  simp [failingChild, subtrees, subtreesOfList]

/-- C2 (amended): when the tree query of the window `findUrgent` is called on
fails, `findUrgent` returns a non-nil error to its caller, the single error
that wraps the message of the failure; a failure at a proper descendant alone
is not reported: on every tree that has the failing window below a root whose
own query succeeds, `findUrgent` on the root returns nil. -/
theorem findUrgent_reports_root_failure (X : XUtil) (t : WTree) (acc : List String)
    (err : String) (h : t.queryErr = some err) :
    (findUrgent X t acc).1 = some ("queryTree failed: " ++ err) ∧
    (∀ root, t ∈ subtrees root → root.queryErr = none →
      (findUrgent X root acc).1 = none) := by
  refine ⟨?_, ?_⟩
  · rw [findUrgent_fst, h]
    rfl
  · intro root _ hr
    rw [findUrgent_fst, hr]
    rfl

/-- Witness of C2 (amended): `QueryTree` fails on window 1, alone and below
the root window 0. -/
theorem findUrgent_reports_root_failure_witness :
    (findUrgent allUrgent (.node 1 (some "BadWindow") [.node 3 none []]) []).1 =
      some ("queryTree failed: " ++ "BadWindow") ∧
    (∀ root, WTree.node 1 (some "BadWindow") [.node 3 none []] ∈ subtrees root →
      root.queryErr = none → (findUrgent allUrgent root []).1 = none) :=
  findUrgent_reports_root_failure allUrgent (.node 1 (some "BadWindow") [.node 3 none []]) []
    "BadWindow" rfl

/-- C9: `findUrgent` called on a window returns a non-nil error if and only if
the tree query of that window fails, and then the accumulator is left
unchanged; otherwise it returns nil and the accumulator it leaves is the one it
leaves on the hierarchy in which every window whose tree query fails is a
window without children, a hierarchy in which every tree query succeeds. -/
theorem findUrgent_error_iff (X : XUtil) (t : WTree) (acc : List String) :
    ((findUrgent X t acc).1 ≠ none ↔ t.queryErr ≠ none) ∧
    (findUrgent X t acc).2 =
      (if t.queryErr ≠ none then acc else (findUrgent X (childless t) acc).2) ∧
    (t.queryErr = none → findUrgent X t acc = findUrgent X (childless t) acc) ∧
    queriesOk (childless t) = true := by
  refine ⟨?_, ?_, ?_, childless_queriesOk t⟩
  · rw [findUrgent_fst]
    cases t.queryErr <;> simp
  · by_cases h : t.queryErr ≠ none
    · rw [if_pos h, findUrgent_snd_of_fails X t acc h]
    · rw [if_neg h, findUrgent_childless]
  · intro h
    apply Prod.ext
    · rw [findUrgent_fst, findUrgent_fst, h]
      rcases t with ⟨w, _ | e, cs⟩
      · simp [childless, WTree.queryErr]
      · simp [WTree.queryErr] at h
    · rw [findUrgent_childless]

/-- C4: after `findUrgent` runs on the root from an empty accumulator, every
entry of the result list is non-empty and is the resolved name of a window
below the root whose hint fetch succeeded with the urgency bit (mask 256,
bit 8) set; the list holds the entries of the windows the walk reaches and
nothing else, and a window whose urgency bit is unset, whose hints cannot be
fetched or whose name does not resolve to a non-empty string has no entry. -/
theorem findUrgent_entries_urgent_named (X : XUtil) (t : WTree) (name : String)
    (h : name ∈ (findUrgent X t []).2) :
    name ≠ "" ∧
    (∃ s ∈ subtrees t, ∃ hints, X.WmHintsGet s.win = .ok hints ∧
      hints.Flags &&& 256 ≠ 0 ∧ hints.Flags.testBit 8 = true ∧
      windowName X s.win = .ok name) ∧
    (findUrgent X t []).2 = (visited t).filterMap (fun s => ownEntry X s.win) ∧
    (∀ w, ((∀ hints, X.WmHintsGet w = .ok hints → hints.Flags &&& 256 = 0) ∨
        (∀ n, windowName X w = .ok n → n = "")) → ownEntry X w = none) := by
  have hsnd : (findUrgent X t []).2 = (visited t).filterMap (fun s => ownEntry X s.win) := by
    rw [findUrgent_snd]
    simp
  rw [hsnd, List.mem_filterMap] at h
  obtain ⟨s, hs, he⟩ := h
  obtain ⟨hu, hn, hne⟩ := ownEntry_eq_some he
  obtain ⟨hints, hh, hb⟩ := (isUrgent_iff X s.win).1 hu
  have ht : hints.Flags.testBit 8 = true := by
    cases hb' : hints.Flags.testBit 8
    · exact absurd ((land_urgencyHint hints.Flags).2 hb') hb
    · rfl
  refine ⟨hne, ⟨s, (visited_sublist t).subset hs, hints, hh, hb, ht, hn⟩, hsnd, ?_⟩
  rintro w (hw | hw)
  · apply ownEntry_of_calm
    cases hu' : isUrgent X w
    · rfl
    · obtain ⟨h', e, hne'⟩ := (isUrgent_iff X w).1 hu'
      exact absurd (hw h' e) hne'
  · exact ownEntry_of_nameless hw

/-- Witness of C4: the entry Mail of the end-to-end scenario. -/
theorem findUrgent_entries_urgent_named_witness :
    "Mail" ≠ "" ∧
    (∃ s ∈ subtrees scenarioTree, ∃ hints, scenarioX.WmHintsGet s.win = .ok hints ∧
      hints.Flags &&& 256 ≠ 0 ∧ hints.Flags.testBit 8 = true ∧
      windowName scenarioX s.win = .ok "Mail") ∧
    (findUrgent scenarioX scenarioTree []).2 =
      (visited scenarioTree).filterMap (fun s => ownEntry scenarioX s.win) ∧
    (∀ w, ((∀ hints, scenarioX.WmHintsGet w = .ok hints → hints.Flags &&& 256 = 0) ∨
        (∀ n, windowName scenarioX w = .ok n → n = "")) → ownEntry scenarioX w = none) :=
  findUrgent_entries_urgent_named scenarioX scenarioTree "Mail" (by decide)

/-- C10: the window passed to `findUrgent` is itself neither tested for urgency
nor named: two servers that agree on every window other than the root give the
same error and the same result list on a hierarchy in which no window below the
root has the identifier of the root, and every entry appended comes from a
window below the root; so an urgent, named root contributes no entry. -/
theorem findUrgent_ignores_root_attrs (X X' : XUtil) (t : WTree) (acc : List String)
    (hagree : ∀ w, w ≠ t.win → X.GetProperty w = X'.GetProperty w ∧
      X.WmNameGet w = X'.WmNameGet w ∧ X.WmHintsGet w = X'.WmHintsGet w)
    (hid : ∀ s ∈ subtrees t, s.win ≠ t.win) :
    findUrgent X t acc = findUrgent X' t acc ∧
    (∃ reached : List WTree, reached.Sublist (subtrees t) ∧
      (findUrgent X t acc).2 = acc ++ reached.filterMap (fun s => ownEntry X s.win)) := by
  refine ⟨?_, visited t, visited_sublist t, findUrgent_snd X t acc⟩
  apply findUrgent_congr
  intro s hs
  obtain ⟨h1, h2, h3⟩ := hagree s.win (hid s ((visited_sublist t).subset hs))
  exact ownEntry_congr h1 h2 h3

/-- Witness of C10: the root window 0 is urgent and named on one server and
neither on the other, and nothing is appended for it. -/
theorem findUrgent_ignores_root_attrs_witness :
    isUrgent allUrgent 0 = true ∧ windowName allUrgent 0 = .ok "w0" ∧
    isUrgent plainRoot 0 = false ∧
    (findUrgent allUrgent rootOnly []).2 = [] ∧
    findUrgent allUrgent failingChild [] = findUrgent plainRoot failingChild [] ∧
    (∃ reached : List WTree, reached.Sublist (subtrees failingChild) ∧
      (findUrgent allUrgent failingChild []).2 =
        [] ++ reached.filterMap (fun s => ownEntry allUrgent s.win)) :=
  ⟨by decide, rfl, by decide, by decide,
    findUrgent_ignores_root_attrs allUrgent plainRoot failingChild []
      (by
        intro w hw
        have hw0 : w ≠ 0 := hw
        simp [allUrgent, plainRoot, hw0])
      (by
        intro s hs
        simp only [failingChild, subtrees, subtreesOfList, List.nil_append, List.mem_cons,
          List.mem_singleton, List.cons_append, List.not_mem_nil, or_false] at hs
        rcases hs with rfl | rfl | rfl <;> decide)⟩

/-- C6: when all tree queries succeed and the name of a window `W` below the
root does not resolve to a non-empty string (both mechanisms fail or yield the
empty string), then, also when `W` has the urgency bit set, `findUrgent`
appends no entry for `W` itself, the entries of the descendants of
`W` are all in the result list, right where the entry of `W` would follow, and
the outcome is the one of a server that differs only in that `W` is not
urgent. -/
theorem findUrgent_nameless_urgent (X X' : XUtil) (t W : WTree)
    (hq : queriesOk t = true) (hW : W ∈ subtrees t)
    (hn : ∀ name, windowName X W.win = .ok name → name = "")
    (hp : X'.GetProperty = X.GetProperty) (hm : X'.WmNameGet = X.WmNameGet)
    (hh : ∀ w, w ≠ W.win → X'.WmHintsGet w = X.WmHintsGet w)
    (hcalm : isUrgent X' W.win = false) :
    ownEntry X W.win = none ∧
    (∃ before after, subtrees t = before ++ subtrees W ++ W :: after ∧
      (findUrgent X t []).2 =
        before.filterMap (fun s => ownEntry X s.win) ++
        (subtrees W).filterMap (fun s => ownEntry X s.win) ++
        after.filterMap (fun s => ownEntry X s.win)) ∧
    findUrgent X' t [] = findUrgent X t [] := by
  have hnone := ownEntry_of_nameless hn
  refine ⟨hnone, ?_, ?_⟩
  · obtain ⟨b, a, e⟩ := subtrees_segment t W hW
    refine ⟨b, a, e, ?_⟩
    rw [findUrgent_snd, visited_eq_subtrees t hq, e]
    simp [List.filterMap_append, hnone]
  · apply findUrgent_congr
    intro s _
    by_cases hs : s.win = W.win
    · rw [hs, hnone, ownEntry_of_calm hcalm]
    · exact ownEntry_congr (congrFun hp _) (congrFun hm _) (hh _ hs)

/-- Witness of C6: window 3 (C) of the end-to-end scenario, urgent and without
a name, above the urgent window 4 (D). -/
theorem findUrgent_nameless_urgent_witness :
    isUrgent scenarioX 3 = true ∧
    ownEntry scenarioX (WTree.node 3 none [.node 4 none []]).win = none ∧
    (∃ before after, subtrees scenarioTree =
        before ++ subtrees (.node 3 none [.node 4 none []]) ++
          .node 3 none [.node 4 none []] :: after ∧
      (findUrgent scenarioX scenarioTree []).2 =
        before.filterMap (fun s => ownEntry scenarioX s.win) ++
        (subtrees (.node 3 none [.node 4 none []])).filterMap
          (fun s => ownEntry scenarioX s.win) ++
        after.filterMap (fun s => ownEntry scenarioX s.win)) ∧
    findUrgent scenarioCalm scenarioTree [] = findUrgent scenarioX scenarioTree [] :=
  ⟨by decide,
    findUrgent_nameless_urgent scenarioX scenarioCalm scenarioTree
      (.node 3 none [.node 4 none []]) (by decide)
      (by simp [scenarioTree, subtrees, subtreesOfList])
      (by
        intro name h
        have e : windowName scenarioX 3 = .error "no WM_NAME" := rfl
        simp only [WTree.win] at h
        rw [e] at h
        cases h)
      rfl rfl
      (by
        intro w hw
        have hw3 : w ≠ 3 := hw
        simp [scenarioCalm, hw3])
      (by decide)⟩

/-- Counterexample to C1: on the tree that is the root alone, with the root
urgent and named, every tree query succeeds, the set of urgent nodes is the
root, which has a resolvable non-empty name, and the result list has no entry
rather than one. -/
theorem findUrgent_urgent_root_not_counted :
    queriesOk rootOnly = true ∧
    (∀ s ∈ rootOnly :: subtrees rootOnly, isUrgent allUrgent s.win = true →
      ∃ name, windowName allUrgent s.win = .ok name ∧ name ≠ "") ∧
    ((rootOnly :: subtrees rootOnly).filter (fun s => isUrgent allUrgent s.win)).length = 1 ∧
    (findUrgent allUrgent rootOnly []).2.length = 0 := by
  refine ⟨by decide, ?_, by decide, by decide⟩
  intro s hs _
  simp only [rootOnly, subtrees, subtreesOfList, List.mem_singleton] at hs
  subst hs
  exact ⟨"w0", rfl, by decide⟩

/-- C1 (amended): on a window tree in which every tree query succeeds, if every
window below the root whose hint flags have the urgency bit set has a
resolvable non-empty name, then `findUrgent` on the root from an empty
accumulator returns no error and leaves a result list with exactly one entry
per urgent window below the root, each the resolved name of its window, the
entries of the descendants of a window right before the entry of that window;
the root itself is not counted. -/
theorem findUrgent_lists_urgent_descendants (X : XUtil) (t : WTree)
    (hq : queriesOk t = true)
    (hn : ∀ s ∈ subtrees t, isUrgent X s.win = true →
      ∃ name, windowName X s.win = .ok name ∧ name ≠ "") :
    (findUrgent X t []).1 = none ∧
    List.Forall₂ (fun s name => windowName X s.win = .ok name)
      ((subtrees t).filter (fun s => isUrgent X s.win)) (findUrgent X t []).2 ∧
    (findUrgent X t []).2.length =
      ((subtrees t).filter (fun s => isUrgent X s.win)).length ∧
    (∀ s ∈ subtrees t, ∃ before after, subtrees t = before ++ subtrees s ++ s :: after ∧
      (findUrgent X t []).2 =
        before.filterMap (fun s => ownEntry X s.win) ++
        (subtrees s).filterMap (fun s => ownEntry X s.win) ++
        (ownEntry X s.win).toList ++
        after.filterMap (fun s => ownEntry X s.win)) := by
  have hsnd : (findUrgent X t []).2 = (subtrees t).filterMap (fun s => ownEntry X s.win) := by
    rw [findUrgent_snd, visited_eq_subtrees t hq]
    simp
  have hf := forall₂_filter_filterMap X (subtrees t) hn
  refine ⟨?_, ?_, ?_, ?_⟩
  · rw [findUrgent_fst]
    rcases t with ⟨w, _ | e, cs⟩
    · rfl
    · simp [queriesOk] at hq
  · rw [hsnd]
    exact hf
  · rw [hsnd]
    exact hf.length_eq.symm
  · intro s hs
    obtain ⟨b, a, e⟩ := subtrees_segment t s hs
    refine ⟨b, a, e, ?_⟩
    rw [hsnd, e]
    simp only [List.filterMap_append, List.filterMap_cons, List.append_assoc]
    cases ownEntry X s.win <;> simp

/-- Witness of C1 (amended): the end-to-end scenario once window 3 (C) is not
urgent, so that every urgent window below the root has a name. -/
theorem findUrgent_lists_urgent_descendants_witness :
    (findUrgent scenarioCalm scenarioTree []).1 = none ∧
    List.Forall₂ (fun s name => windowName scenarioCalm s.win = .ok name)
      ((subtrees scenarioTree).filter (fun s => isUrgent scenarioCalm s.win))
      (findUrgent scenarioCalm scenarioTree []).2 ∧
    (findUrgent scenarioCalm scenarioTree []).2.length =
      ((subtrees scenarioTree).filter (fun s => isUrgent scenarioCalm s.win)).length ∧
    (∀ s ∈ subtrees scenarioTree, ∃ before after,
      subtrees scenarioTree = before ++ subtrees s ++ s :: after ∧
      (findUrgent scenarioCalm scenarioTree []).2 =
        before.filterMap (fun s => ownEntry scenarioCalm s.win) ++
        (subtrees s).filterMap (fun s => ownEntry scenarioCalm s.win) ++
        (ownEntry scenarioCalm s.win).toList ++
        after.filterMap (fun s => ownEntry scenarioCalm s.win)) :=
  findUrgent_lists_urgent_descendants scenarioCalm scenarioTree (by decide)
    (by
      intro s hs hu
      simp only [scenarioTree, subtrees, subtreesOfList, List.nil_append, List.mem_cons,
        List.mem_singleton, List.cons_append, List.not_mem_nil, or_false] at hs
      rcases hs with rfl | rfl | rfl | rfl
      · exact absurd hu (by decide)
      · exact ⟨"Mail", rfl, by decide⟩
      · exact ⟨"Chat", rfl, by decide⟩
      · exact absurd hu (by decide))

/-- Counterexample to C3: the root lists window 1, on which the tree query
fails, before window 2; `findUrgent` still appends the entry of window 1 itself
and the entry of its later sibling 2. -/
theorem findUrgent_continues_after_failure :
    failingChild = .node 0 none [.node 1 (some "BadWindow") [.node 3 none []],
      .node 2 none []] ∧
    windowName allUrgent 1 = .ok "w1" ∧ windowName allUrgent 2 = .ok "w2" ∧
    (findUrgent allUrgent failingChild []).2 = ["w1", "w2"] :=
  ⟨rfl, rfl, rfl, by decide⟩

/-- C3 (amended): when the tree query of a window `N` fails, `findUrgent`
appends no entry for any proper descendant of `N`: the call on `N` leaves the
accumulator as it is, and the windows the walk of the whole tree reaches are
among the windows below the root other than the proper descendants of `N`.
`N` itself is still tested and the siblings after `N` are still processed:
the call on the parent of `N` leaves the accumulator, then the entries of the
siblings before `N` and their subtrees, then the entry of `N` if it has one,
then the entries of the siblings after `N` and their subtrees; what was
appended before the failure keeps its position. -/
theorem findUrgent_failure_skips_descendants_only (X : XUtil) (p : Window)
    (before : List WTree) (N : WTree) (after : List WTree) (acc : List String)
    (hN : N.queryErr ≠ none) :
    (findUrgent X N acc).2 = acc ∧
    (findUrgent X (.node p none (before ++ N :: after)) acc).2 =
      acc ++ findUrgentChildren X before [] ++ (ownEntry X N.win).toList ++
        findUrgentChildren X after [] ∧
    findUrgentChildren X before acc = acc ++ findUrgentChildren X before [] ∧
    (∀ t, N ∈ subtrees t → ∃ pre post, subtrees t = pre ++ subtrees N ++ N :: post ∧
      ∃ reached : List WTree, reached.Sublist (pre ++ N :: post) ∧
        (findUrgent X t acc).2 = acc ++ reached.filterMap (fun s => ownEntry X s.win)) := by
  refine ⟨findUrgent_snd_of_fails X N acc hN, ?_, ?_, ?_⟩
  · simp only [findUrgent]
    rw [findUrgentChildren_append, findUrgentChildren_cons,
      findUrgent_snd_of_fails X N _ hN]
    simp only [findUrgentChildren_eq, List.nil_append, List.append_assoc]
  · simp only [findUrgentChildren_eq, List.nil_append]
  · intro t ht
    obtain ⟨b, a, e, hs⟩ := visited_skips t N ht hN
    exact ⟨b, a, e, visited t, hs, findUrgent_snd X t acc⟩

/-- Witness of C3 (amended): the tree query fails on window 1, which has the
child 3 and comes before its sibling 2. -/
theorem findUrgent_failure_skips_descendants_only_witness :
    (findUrgent allUrgent (.node 1 (some "BadWindow") [.node 3 none []]) []).2 = [] ∧
    (findUrgent allUrgent (.node 0 none ([.node 4 none []] ++
        .node 1 (some "BadWindow") [.node 3 none []] :: [.node 2 none []])) []).2 =
      [] ++ findUrgentChildren allUrgent [.node 4 none []] [] ++
        (ownEntry allUrgent (WTree.node 1 (some "BadWindow") [.node 3 none []]).win).toList ++
        findUrgentChildren allUrgent [.node 2 none []] [] ∧
    findUrgentChildren allUrgent [.node 4 none []] [] =
      [] ++ findUrgentChildren allUrgent [.node 4 none []] [] ∧
    (∀ t, WTree.node 1 (some "BadWindow") [.node 3 none []] ∈ subtrees t →
      ∃ pre post, subtrees t =
          pre ++ subtrees (.node 1 (some "BadWindow") [.node 3 none []]) ++
            .node 1 (some "BadWindow") [.node 3 none []] :: post ∧
        ∃ reached : List WTree,
          reached.Sublist (pre ++ .node 1 (some "BadWindow") [.node 3 none []] :: post) ∧
          (findUrgent allUrgent t []).2 =
            [] ++ reached.filterMap (fun s => ownEntry allUrgent s.win)) :=
  findUrgent_failure_skips_descendants_only allUrgent 0 [.node 4 none []]
    (.node 1 (some "BadWindow") [.node 3 none []]) [.node 2 none []] []
    (by simp [WTree.queryErr])

end Urgent
